import Mathlib

/-!
Verification of the anomaly-detection script `anomalies.py`.

The script reads per-day transaction counts from a database, computes the
interquartile range (IQR) of the counts, and writes the days whose counts fall
strictly outside `[q1 - 1.5*iqr, q3 + 1.5*iqr]` to a CSV file, sorted by date.

The embedding models the data frame of `days_unusual_sale_counts` as a list of
(date, count) rows.  Counts are natural numbers (SQL `count(*)`); the derived
quantities are exact rationals, which coincide with the floating-point values
pandas computes on all the concrete inputs considered here.  `Series.quantile`
with its default `interpolation="linear"` is modelled by sorting and linear
interpolation at position `p * (n - 1)`, exactly as numpy implements it.
-/

namespace Anomalies

/-- One row of the aggregated query result: a calendar date (encoded as a day
number) and the number of sales orders on that date. -/
structure DailyCount where
  date : Nat
  count : Nat
deriving DecidableEq

/-- The `count` column of the data frame, as rational numbers. -/
def countsCol (rows : List DailyCount) : List ℚ :=
  rows.map (fun r => (r.count : ℚ))

/-- Linear-interpolation quantile of an already sorted list, as numpy computes
it: position `pos = p * (n - 1)`, lower index `i = ⌊pos⌋`, and value
`s[i] + fract pos * (s[i+1] - s[i])` (when `fract pos = 0` the second index is
never material). -/
def quantileSorted (s : List ℚ) (p : ℚ) : ℚ :=
  let pos := p * ((s.length : ℚ) - 1)
  let i := (⌊pos⌋).toNat
  let lo := s.getD i 0
  let hi := s.getD (i + 1) lo
  lo + Int.fract pos * (hi - lo)

/-- `Series.quantile(p)` with the default linear interpolation: sort the
values, then interpolate. -/
def quantile (xs : List ℚ) (p : ℚ) : ℚ :=
  quantileSorted (xs.mergeSort (fun a b => a ≤ b)) p

/-- `q_1 = transaction_counts["count"].quantile(0.25)`. -/
def q_1 (rows : List DailyCount) : ℚ := quantile (countsCol rows) (1/4)

/-- `q_3 = transaction_counts["count"].quantile(0.75)`. -/
def q_3 (rows : List DailyCount) : ℚ := quantile (countsCol rows) (3/4)

/-- `iqr = q_3 - q_1`. -/
def iqr (rows : List DailyCount) : ℚ := q_3 rows - q_1 rows

/-- `lower_bound = q_1 - (1.5 * iqr)`. -/
def lower_bound (rows : List DailyCount) : ℚ := q_1 rows - 3/2 * iqr rows

/-- `upper_bound = q_3 + (1.5 * iqr)`. -/
def upper_bound (rows : List DailyCount) : ℚ := q_3 rows + 3/2 * iqr rows

/-- pandas `Series.between(left, right)` with the default `inclusive="both"`. -/
def between (x left right : ℚ) : Bool :=
  decide (left ≤ x) && decide (x ≤ right)

/-- The row mask `~transaction_counts["count"].between(lower_bound, upper_bound)`. -/
def isAnomaly (rows : List DailyCount) (r : DailyCount) : Bool :=
  ! between (r.count : ℚ) (lower_bound rows) (upper_bound rows)

/-- The pure core of `days_unusual_sale_counts`: keep the rows whose count is
not between the bounds, then `sort_values(by=["orderdate"])`. -/
def days_unusual_sale_counts (rows : List DailyCount) : List DailyCount :=
  (rows.filter (fun r => isAnomaly rows r)).mergeSort (fun a b => a.date ≤ b.date)

/-- The externally observable outcome of one run of the detector body: either
a CSV holding the given rows was written, or an exception escaped. -/
inductive DetectorOutcome
  | wroteCsv (rows : List DailyCount)
  | raised (msg : String)
deriving DecidableEq

/-- One full run of the `days_unusual_sale_counts` body on an already fetched
frame.  The source contains no `raise` statement and ends unconditionally in
`anomalies.to_csv(...)`; `Series.quantile` on an empty series returns NaN
without raising, `between` against NaN bounds produces an all-false mask, and
filtering and sorting an empty frame yield an empty frame, so every input —
the empty one included — reaches the `to_csv` call. -/
def detectorRun (rows : List DailyCount) : DetectorOutcome :=
  DetectorOutcome.wroteCsv (days_unusual_sale_counts rows)

/-- An INI configuration file as `ConfigParser` sees it: named sections, each
holding key/value items. -/
structure IniFile where
  sections : List (String × List (String × String))

/-- `get_config`: look up the fixed section `"postgresql"` and return its
items; when the section is missing, raise
`ValueError(f"Section postgresql not found in {filename}")`. -/
def get_config (file : IniFile) : Except String (List (String × String)) :=
  match file.sections.lookup "postgresql" with
  | some params => Except.ok params
  | none => Except.error "Section postgresql not found in database.ini"

/-- The environment `connect` runs in: the configuration file, and whether
`URL.create`/`create_engine` fails (data source unreachable or credentials
rejected). -/
structure Env where
  ini : IniFile
  engineFails : Bool

/-- Result of `connect`: the engine (or `None`), together with the diagnostic
printed by the `except` block, when one was printed. -/
structure ConnectResult where
  engine : Option Unit
  printed : Option String
deriving DecidableEq

/-- `connect`: read the configuration and build the engine inside a
`try`/`except Exception` that prints the error and returns `None`. -/
def connect (env : Env) : ConnectResult :=
  match get_config env.ini with
  | Except.error e => { engine := none, printed := some e }
  | Except.ok _ =>
    if env.engineFails then
      { engine := none, printed := some "could not connect to server" }
    else
      { engine := some (), printed := none }

/-- Observable outcome of the `__main__` block: the diagnostic printed (if
any), whether `days_unusual_sale_counts` was invoked, and how many times
`connect` was called. -/
structure MainOutcome where
  printed : Option String
  analysisRan : Bool
  connectAttempts : Nat
deriving DecidableEq

/-- The `__main__` block: call `connect` exactly once and run the analysis
only when it returned an engine. -/
def main_run (env : Env) : MainOutcome :=
  let c := connect env
  { printed := c.printed
    analysisRan := c.engine.isSome
    connectAttempts := 1 }

/-- Scenario A input: counts [10, 12, 12, 13, 14, 15, 100] for dates
Jan 1 through Jan 7 (encoded as days 1 through 7). -/
def scenarioA : List DailyCount :=
  [⟨1, 10⟩, ⟨2, 12⟩, ⟨3, 12⟩, ⟨4, 13⟩, ⟨5, 14⟩, ⟨6, 15⟩, ⟨7, 100⟩]

/-- A two-row input whose counts are all 5, used to instantiate the general
theorems at a concrete input. -/
def pairRows : List DailyCount := [⟨1, 5⟩, ⟨2, 5⟩]

/-- For a nonempty list and `0 ≤ p`, the interpolation position
`p * (length - 1)` has a nonnegative floor. -/
theorem floor_pos_nonneg (s : List ℚ) (hne : s ≠ []) {p : ℚ} (hp0 : 0 ≤ p) :
    0 ≤ ⌊p * ((s.length : ℚ) - 1)⌋ := by
  rw [Int.floor_nonneg]
  have h1 : 1 ≤ s.length := List.length_pos.mpr hne
  have h1q : (1 : ℚ) ≤ (s.length : ℚ) := by exact_mod_cast h1
  exact mul_nonneg hp0 (by linarith)

/-- For a nonempty list and `0 ≤ p ≤ 1`, the lower interpolation index is in
range. -/
theorem floor_toNat_lt_length (s : List ℚ) (hne : s ≠ []) {p : ℚ}
    (_hp0 : 0 ≤ p) (hp1 : p ≤ 1) :
    (⌊p * ((s.length : ℚ) - 1)⌋).toNat < s.length := by
  have h1 : 1 ≤ s.length := List.length_pos.mpr hne
  have h1q : (1 : ℚ) ≤ (s.length : ℚ) := by exact_mod_cast h1
  have hposle : p * ((s.length : ℚ) - 1) ≤ (s.length : ℚ) - 1 := by nlinarith
  have hfl : (⌊p * ((s.length : ℚ) - 1)⌋ : ℚ) ≤ (s.length : ℚ) - 1 :=
    le_trans (Int.floor_le _) hposle
  have hfl2 : ⌊p * ((s.length : ℚ) - 1)⌋ ≤ (s.length : ℤ) - 1 := by exact_mod_cast hfl
  omega

/-- On a list all of whose entries equal `c`, every linear-interpolation
quantile with `0 ≤ p ≤ 1` equals `c`. -/
theorem quantileSorted_const (s : List ℚ) (c : ℚ) (hne : s ≠ []) (hall : ∀ x ∈ s, x = c)
    {p : ℚ} (hp0 : 0 ≤ p) (hp1 : p ≤ 1) :
    quantileSorted s p = c := by
  have hi := floor_toNat_lt_length s hne hp0 hp1
  simp only [quantileSorted]
  have hlo : s.getD (⌊p * ((s.length : ℚ) - 1)⌋).toNat 0 = c := by
    rw [List.getD_eq_getElem s 0 hi]
    exact hall _ (List.getElem_mem hi)
  have hhi : s.getD ((⌊p * ((s.length : ℚ) - 1)⌋).toNat + 1)
      (s.getD (⌊p * ((s.length : ℚ) - 1)⌋).toNat 0) = c := by
    by_cases h : (⌊p * ((s.length : ℚ) - 1)⌋).toNat + 1 < s.length
    · rw [List.getD_eq_getElem s _ h]
      exact hall _ (List.getElem_mem h)
    · rw [List.getD_eq_default s _ (by omega)]
      exact hlo
  rw [hhi, hlo]
  ring

/-- `getD` at default 0 is monotone in the index on a sorted list, while the
larger index stays in range. -/
theorem getD_mono_of_sorted {s : List ℚ} (hs : List.Sorted (· ≤ ·) s) {i j : ℕ}
    (hij : i ≤ j) (hj : j < s.length) : s.getD i 0 ≤ s.getD j 0 := by
  have hi : i < s.length := lt_of_le_of_lt hij hj
  rw [List.getD_eq_getElem s 0 hi, List.getD_eq_getElem s 0 hj]
  have h := hs.get_mono (show (⟨i, hi⟩ : Fin s.length) ≤ ⟨j, hj⟩ from hij)
  simpa using h

/-- On a sorted list the interpolation endpoints are ordered: the value at an
in-range index is at most its successor value (the successor defaulting to the
value itself when out of range). -/
theorem interp_lo_le_hi (s : List ℚ) (hs : List.Sorted (· ≤ ·) s) (j : ℕ)
    (hj : j < s.length) : s.getD j 0 ≤ s.getD (j + 1) (s.getD j 0) := by
  by_cases h : j + 1 < s.length
  · rw [List.getD_eq_getElem s (s.getD j 0) h, ← List.getD_eq_getElem s 0 h]
    exact getD_mono_of_sorted hs (Nat.le_succ j) h
  · rw [List.getD_eq_default s (s.getD j 0) (show s.length ≤ j + 1 by omega)]

/-- Linear interpolation over a sorted list is monotone in the position: for
`0 ≤ x ≤ y ≤ length − 1` the interpolated value at `x` is at most the one
at `y`. -/
theorem interp_mono (s : List ℚ) (hs : List.Sorted (· ≤ ·) s) {x y : ℚ}
    (hx0 : 0 ≤ x) (hxy : x ≤ y) (hyle : y ≤ (s.length : ℚ) - 1) :
    s.getD (⌊x⌋).toNat 0
        + Int.fract x * (s.getD ((⌊x⌋).toNat + 1) (s.getD (⌊x⌋).toNat 0)
            - s.getD (⌊x⌋).toNat 0)
      ≤ s.getD (⌊y⌋).toNat 0
        + Int.fract y * (s.getD ((⌊y⌋).toNat + 1) (s.getD (⌊y⌋).toNat 0)
            - s.getD (⌊y⌋).toNat 0) := by
  have hy0 : 0 ≤ y := le_trans hx0 hxy
  have hfx0 : (0 : ℤ) ≤ ⌊x⌋ := Int.floor_nonneg.mpr hx0
  have hfy0 : (0 : ℤ) ≤ ⌊y⌋ := Int.floor_nonneg.mpr hy0
  have hff : ⌊x⌋ ≤ ⌊y⌋ := Int.floor_mono hxy
  have hn1 : 1 ≤ s.length := by
    by_contra h
    have h0 : s.length = 0 := by omega
    rw [h0] at hyle
    norm_num at hyle
    linarith
  have hiy : (⌊y⌋).toNat < s.length := by
    have ha : (⌊y⌋ : ℚ) ≤ (s.length : ℚ) - 1 := le_trans (Int.floor_le y) hyle
    have hb : ⌊y⌋ ≤ (s.length : ℤ) - 1 := by exact_mod_cast ha
    omega
  by_cases hij : ⌊x⌋ = ⌊y⌋
  · rw [hij]
    have hf : Int.fract x ≤ Int.fract y := by
      rw [← Int.self_sub_floor, ← Int.self_sub_floor, hij]
      linarith
    have hl := interp_lo_le_hi s hs _ hiy
    have hfx : 0 ≤ Int.fract x := Int.fract_nonneg x
    nlinarith
  · have hlt : ⌊x⌋ < ⌊y⌋ := lt_of_le_of_ne hff hij
    have hij2 : (⌊x⌋).toNat + 1 ≤ (⌊y⌋).toNat := by omega
    have hmid : (⌊x⌋).toNat + 1 < s.length := by omega
    have step1 : s.getD (⌊x⌋).toNat 0
        + Int.fract x * (s.getD ((⌊x⌋).toNat + 1) (s.getD (⌊x⌋).toNat 0)
            - s.getD (⌊x⌋).toNat 0)
        ≤ s.getD ((⌊x⌋).toNat + 1) 0 := by
      have heq : s.getD ((⌊x⌋).toNat + 1) (s.getD (⌊x⌋).toNat 0)
          = s.getD ((⌊x⌋).toNat + 1) 0 := by
        rw [List.getD_eq_getElem s (s.getD (⌊x⌋).toNat 0) hmid,
            List.getD_eq_getElem s 0 hmid]
      rw [heq]
      have hlh : s.getD (⌊x⌋).toNat 0 ≤ s.getD ((⌊x⌋).toNat + 1) 0 :=
        getD_mono_of_sorted hs (Nat.le_succ _) hmid
      have hfx1 : Int.fract x < 1 := Int.fract_lt_one x
      have hfx0q : 0 ≤ Int.fract x := Int.fract_nonneg x
      nlinarith
    have step2 : s.getD ((⌊x⌋).toNat + 1) 0 ≤ s.getD (⌊y⌋).toNat 0 :=
      getD_mono_of_sorted hs hij2 hiy
    have step3 : s.getD (⌊y⌋).toNat 0
        ≤ s.getD (⌊y⌋).toNat 0
          + Int.fract y * (s.getD ((⌊y⌋).toNat + 1) (s.getD (⌊y⌋).toNat 0)
              - s.getD (⌊y⌋).toNat 0) := by
      have hl := interp_lo_le_hi s hs _ hiy
      have hfy := Int.fract_nonneg y
      nlinarith
    linarith

/-- `mergeSort` with the rational order produces a sorted list. -/
theorem mergeSort_sorted_le (xs : List ℚ) :
    List.Sorted (· ≤ ·) (xs.mergeSort (fun a b => a ≤ b)) := by
  have htrans : ∀ a b c : ℚ, (fun a b : ℚ => decide (a ≤ b)) a b = true →
      (fun a b : ℚ => decide (a ≤ b)) b c = true →
      (fun a b : ℚ => decide (a ≤ b)) a c = true := by
    intro a b c hab hbc
    simp only [decide_eq_true_eq] at *
    exact le_trans hab hbc
  have htotal : ∀ a b : ℚ, ((fun a b : ℚ => decide (a ≤ b)) a b
      || (fun a b : ℚ => decide (a ≤ b)) b a) = true := by
    intro a b
    simp [le_total]
  have h := @List.sorted_mergeSort ℚ (fun a b : ℚ => decide (a ≤ b)) htrans htotal xs
  exact h.imp (fun hab => of_decide_eq_true hab)

/-- Quantiles of a sorted nonempty list are monotone in the fraction. -/
theorem quantileSorted_mono (s : List ℚ) (hs : List.Sorted (· ≤ ·) s) (hne : s ≠ [])
    {p q : ℚ} (hp0 : 0 ≤ p) (hpq : p ≤ q) (hq1 : q ≤ 1) :
    quantileSorted s p ≤ quantileSorted s q := by
  have h1 : 1 ≤ s.length := List.length_pos.mpr hne
  have h1q : (1 : ℚ) ≤ (s.length : ℚ) := by exact_mod_cast h1
  have hq0 : 0 ≤ q := le_trans hp0 hpq
  simp only [quantileSorted]
  exact interp_mono s hs (mul_nonneg hp0 (by linarith))
    (mul_le_mul_of_nonneg_right hpq (by linarith)) (by nlinarith)

/-- The interquartile range computed by the code is nonnegative on every
nonempty input. -/
theorem iqr_nonneg (rows : List DailyCount) (hne : rows ≠ []) : 0 ≤ iqr rows := by
  have hne2 : (countsCol rows).mergeSort (fun a b => a ≤ b) ≠ [] := by
    apply List.ne_nil_of_length_pos
    rw [List.length_mergeSort, countsCol, List.length_map]
    exact List.length_pos.mpr hne
  have h13 : q_1 rows ≤ q_3 rows := by
    rw [q_1, q_3, quantile, quantile]
    exact quantileSorted_mono _ (mergeSort_sorted_le _) hne2 (by norm_num) (by norm_num)
      (by norm_num)
  rw [iqr]
  linarith

/-- The percentile as the spec words it, for comparison with `quantile`: "for
the sorted sequence of n counts, the percentile at fraction p is the value at
rank index p·(n−1), interpolating linearly between the two bracketing sorted
values when that index is non-integral". -/
def specPercentile (xs : List ℚ) (p : ℚ) : ℚ :=
  let s := xs.mergeSort (fun a b => a ≤ b)
  let idx := p * ((s.length : ℚ) - 1)
  if Int.fract idx = 0 then s.getD (⌊idx⌋).toNat 0
  else (1 - Int.fract idx) * s.getD (⌊idx⌋).toNat 0
       + Int.fract idx * s.getD ((⌊idx⌋).toNat + 1) 0

/-- The numpy interpolation `lo + fract·(hi − lo)` agrees with the spec wording
`(1 − fract)·lo + fract·hi` (with the exact sorted value taken at integral
indices) on every nonempty sorted list, for `0 ≤ p < 1`. -/
theorem quantileSorted_eq_interp (s : List ℚ) (hne : s ≠ []) {p : ℚ}
    (hp0 : 0 ≤ p) (hp1 : p < 1) :
    quantileSorted s p =
      if Int.fract (p * ((s.length : ℚ) - 1)) = 0 then
        s.getD (⌊p * ((s.length : ℚ) - 1)⌋).toNat 0
      else
        (1 - Int.fract (p * ((s.length : ℚ) - 1)))
            * s.getD (⌊p * ((s.length : ℚ) - 1)⌋).toNat 0
          + Int.fract (p * ((s.length : ℚ) - 1))
            * s.getD ((⌊p * ((s.length : ℚ) - 1)⌋).toNat + 1) 0 := by
  simp only [quantileSorted]
  by_cases hf : Int.fract (p * ((s.length : ℚ) - 1)) = 0
  · rw [if_pos hf, hf]
    ring
  · rw [if_neg hf]
    have hn2 : 2 ≤ s.length := by
      rcases Nat.lt_or_ge s.length 2 with h | h
      · exfalso
        have h1 : 1 ≤ s.length := List.length_pos.mpr hne
        have hl1 : s.length = 1 := by omega
        apply hf
        rw [hl1]
        norm_num
      · exact h
    have h2q : (2 : ℚ) ≤ (s.length : ℚ) := by exact_mod_cast hn2
    have hlt : p * ((s.length : ℚ) - 1) < (s.length : ℚ) - 1 := by nlinarith
    have hfl : (⌊p * ((s.length : ℚ) - 1)⌋ : ℚ) < (s.length : ℚ) - 1 :=
      lt_of_le_of_lt (Int.floor_le _) hlt
    have hfl2 : ⌊p * ((s.length : ℚ) - 1)⌋ < (s.length : ℤ) - 1 := by exact_mod_cast hfl
    have h0 : 0 ≤ ⌊p * ((s.length : ℚ) - 1)⌋ := floor_pos_nonneg s hne hp0
    have hrange : (⌊p * ((s.length : ℚ) - 1)⌋).toNat + 1 < s.length := by omega
    rw [List.getD_eq_getElem s (s.getD (⌊p * ((s.length : ℚ) - 1)⌋).toNat 0) hrange,
        List.getD_eq_getElem s 0 hrange]
    ring

/-- C1: the detector computes q1 and q3 exactly as the spec describes the
linear quantile method, at fractions 0.25 and 0.75. -/
theorem quantile_matches_spec (rows : List DailyCount) (hne : rows ≠ []) :
    q_1 rows = specPercentile (countsCol rows) (1/4) ∧
    q_3 rows = specPercentile (countsCol rows) (3/4) := by
  have hne2 : (countsCol rows).mergeSort (fun a b => a ≤ b) ≠ [] := by
    apply List.ne_nil_of_length_pos
    rw [List.length_mergeSort, countsCol, List.length_map]
    exact List.length_pos.mpr hne
  constructor
  · rw [q_1, quantile]
    simp only [specPercentile]
    exact quantileSorted_eq_interp _ hne2 (by norm_num) (by norm_num)
  · rw [q_3, quantile]
    simp only [specPercentile]
    exact quantileSorted_eq_interp _ hne2 (by norm_num) (by norm_num)

/-- C1 witness: the refinement instantiated on a concrete two-row input. -/
theorem quantile_matches_spec_witness :
    q_1 pairRows = specPercentile (countsCol pairRows) (1/4) ∧
    q_3 pairRows = specPercentile (countsCol pairRows) (3/4) :=
  quantile_matches_spec pairRows (by decide)

/-- C5: when all counts are identical (the single-record case included),
iqr = 0, the bounds collapse to that common value, and no record is
flagged. -/
theorem constant_counts_yield_no_anomalies (rows : List DailyCount) (c : ℕ)
    (hne : rows ≠ []) (hall : ∀ r ∈ rows, r.count = c) :
    iqr rows = 0 ∧ q_1 rows = (c : ℚ) ∧ q_3 rows = (c : ℚ) ∧
    lower_bound rows = (c : ℚ) ∧ upper_bound rows = (c : ℚ) ∧
    days_unusual_sale_counts rows = [] := by
  have hcc : ∀ x ∈ (countsCol rows).mergeSort (fun a b => a ≤ b), x = (c : ℚ) := by
    intro x hx
    rw [List.mem_mergeSort, countsCol] at hx
    obtain ⟨r, hr, rfl⟩ := List.mem_map.mp hx
    exact_mod_cast hall r hr
  have hne2 : (countsCol rows).mergeSort (fun a b => a ≤ b) ≠ [] := by
    apply List.ne_nil_of_length_pos
    rw [List.length_mergeSort, countsCol, List.length_map]
    exact List.length_pos.mpr hne
  have hq1 : q_1 rows = (c : ℚ) := by
    rw [q_1, quantile]
    exact quantileSorted_const _ _ hne2 hcc (by norm_num) (by norm_num)
  have hq3 : q_3 rows = (c : ℚ) := by
    rw [q_3, quantile]
    exact quantileSorted_const _ _ hne2 hcc (by norm_num) (by norm_num)
  have hiqr : iqr rows = 0 := by rw [iqr, hq1, hq3]; ring
  have hlb : lower_bound rows = (c : ℚ) := by rw [lower_bound, hq1, hiqr]; ring
  have hub : upper_bound rows = (c : ℚ) := by rw [upper_bound, hq3, hiqr]; ring
  have hout : days_unusual_sale_counts rows = [] := by
    rw [days_unusual_sale_counts]
    have hf : rows.filter (fun r => isAnomaly rows r) = [] := by
      rw [List.filter_eq_nil_iff]
      intro r hr
      have hc : (r.count : ℚ) = (c : ℚ) := by exact_mod_cast hall r hr
      simp [isAnomaly, between, hlb, hub, hc]
    rw [hf, List.mergeSort_nil]
  exact ⟨hiqr, hq1, hq3, hlb, hub, hout⟩

/-- C5 witness: two rows with the common count 5. -/
theorem constant_counts_yield_no_anomalies_witness :
    iqr pairRows = 0 ∧ q_1 pairRows = ((5 : ℕ) : ℚ) ∧ q_3 pairRows = ((5 : ℕ) : ℚ) ∧
    lower_bound pairRows = ((5 : ℕ) : ℚ) ∧ upper_bound pairRows = ((5 : ℕ) : ℚ) ∧
    days_unusual_sale_counts pairRows = [] :=
  constant_counts_yield_no_anomalies pairRows 5 (by decide) (by decide)

/-- C6: on every nonempty input the computed bounds satisfy
lower_bound ≤ q1 ≤ q3 ≤ upper_bound. -/
theorem bounds_ordered (rows : List DailyCount) (hne : rows ≠ []) :
    lower_bound rows ≤ q_1 rows ∧ q_1 rows ≤ q_3 rows ∧ q_3 rows ≤ upper_bound rows := by
  have h := iqr_nonneg rows hne
  have h13 : q_1 rows ≤ q_3 rows := by
    rw [iqr] at h
    linarith
  refine ⟨?_, h13, ?_⟩
  · rw [lower_bound]
    linarith
  · rw [upper_bound]
    linarith

/-- C6 witness: the bound ordering on a concrete two-row input. -/
theorem bounds_ordered_witness :
    lower_bound pairRows ≤ q_1 pairRows ∧ q_1 pairRows ≤ q_3 pairRows ∧
    q_3 pairRows ≤ upper_bound pairRows :=
  bounds_ordered pairRows (by decide)

/-- C2: a record is in the anomaly output iff it is an input row whose count
is strictly below the lower bound or strictly above the upper bound; in
particular a count equal to either bound is never flagged. -/
theorem anomaly_iff_strictly_outside (rows : List DailyCount) (hne : rows ≠ [])
    (r : DailyCount) :
    (r ∈ days_unusual_sale_counts rows ↔
      r ∈ rows ∧ ((r.count : ℚ) < lower_bound rows ∨ upper_bound rows < (r.count : ℚ))) ∧
    (((r.count : ℚ) = lower_bound rows ∨ (r.count : ℚ) = upper_bound rows) →
      r ∉ days_unusual_sale_counts rows) := by
  have hmem : r ∈ days_unusual_sale_counts rows ↔ r ∈ rows ∧ isAnomaly rows r = true := by
    rw [days_unusual_sale_counts, List.mem_mergeSort, List.mem_filter]
  have hiff : isAnomaly rows r = true ↔
      ((r.count : ℚ) < lower_bound rows ∨ upper_bound rows < (r.count : ℚ)) := by
    rw [isAnomaly, between]
    simp [not_and_or, not_le]
  have hlbub : lower_bound rows ≤ upper_bound rows := by
    have h := iqr_nonneg rows hne
    rw [iqr] at h
    rw [lower_bound, upper_bound, iqr]
    linarith
  constructor
  · rw [hmem, hiff]
  · intro hb hcontra
    have h2 := (hmem.mp hcontra).2
    rw [hiff] at h2
    rcases hb with hb | hb <;> rcases h2 with h2 | h2 <;> rw [hb] at h2 <;> linarith

/-- C2 witness: the characterisation instantiated at a concrete input row. -/
theorem anomaly_iff_strictly_outside_witness :
    ((⟨1, 5⟩ : DailyCount) ∈ days_unusual_sale_counts pairRows ↔
      (⟨1, 5⟩ : DailyCount) ∈ pairRows ∧
        (((5 : ℕ) : ℚ) < lower_bound pairRows ∨ upper_bound pairRows < ((5 : ℕ) : ℚ))) ∧
    ((((5 : ℕ) : ℚ) = lower_bound pairRows ∨ ((5 : ℕ) : ℚ) = upper_bound pairRows) →
      (⟨1, 5⟩ : DailyCount) ∉ days_unusual_sale_counts pairRows) :=
  anomaly_iff_strictly_outside pairRows (by decide) ⟨1, 5⟩

/-- Scenario A helper: the first quartile of the counts [10, 12, 12, 13, 14,
15, 100] is 12 (position 0.25·6 = 1.5, between the sorted values 12 and 12). -/
theorem scenarioA_q1 : q_1 scenarioA = 12 := by
  norm_num [q_1, quantile, quantileSorted, countsCol, scenarioA, List.mergeSort,
    List.merge, Int.fract]

/-- Scenario A helper: the third quartile is 14.5, not 15: position
0.75·6 = 4.5 falls between the sorted values 14 and 15, and linear
interpolation yields 14 + 0.5·(15 − 14) = 14.5. -/
theorem scenarioA_q3 : q_3 scenarioA = 29/2 := by
  norm_num [q_3, quantile, quantileSorted, countsCol, scenarioA, List.mergeSort,
    List.merge, Int.fract]
  norm_num [Int.toNat]

/-- Scenario A helper: iqr = 14.5 − 12 = 2.5. -/
theorem scenarioA_iqr : iqr scenarioA = 5/2 := by
  rw [iqr, scenarioA_q1, scenarioA_q3]; norm_num

/-- Scenario A helper: lower bound 12 − 1.5·2.5 = 8.25. -/
theorem scenarioA_lower : lower_bound scenarioA = 33/4 := by
  rw [lower_bound, iqr, scenarioA_q1, scenarioA_q3]; norm_num

/-- Scenario A helper: upper bound 14.5 + 1.5·2.5 = 18.25. -/
theorem scenarioA_upper : upper_bound scenarioA = 73/4 := by
  rw [upper_bound, iqr, scenarioA_q1, scenarioA_q3]; norm_num

/-- C3 counterexample: on Scenario A the code computes q3 = 14.5, not the
claimed 15 (hence iqr = 2.5, not 3, and bounds [8.25, 18.25], not
[7.5, 19.5]). -/
theorem scenarioA_q3_not_fifteen : q_3 scenarioA ≠ 15 := by
  rw [scenarioA_q3]; norm_num

/-- C3 amended: on Scenario A the detector computes q1 = 12, q3 = 14.5,
iqr = 2.5 and bounds [8.25, 18.25], and flags exactly one anomaly: the
record of day 7 with count 100. -/
theorem scenarioA_result :
    q_1 scenarioA = 12 ∧ q_3 scenarioA = 29/2 ∧ iqr scenarioA = 5/2 ∧
    lower_bound scenarioA = 33/4 ∧ upper_bound scenarioA = 73/4 ∧
    days_unusual_sale_counts scenarioA = [⟨7, 100⟩] := by
  refine ⟨scenarioA_q1, scenarioA_q3, scenarioA_iqr, scenarioA_lower, scenarioA_upper, ?_⟩
  rw [days_unusual_sale_counts]
  have hpred : (fun r => isAnomaly scenarioA r)
      = (fun r : DailyCount => ! between (r.count : ℚ) (33/4) (73/4)) := by
    funext r
    rw [isAnomaly, scenarioA_lower, scenarioA_upper]
  rw [hpred]
  norm_num [scenarioA, List.filter, between, List.mergeSort]

/-- The reversal of `pairRows`: same rows presented in the opposite input
order. -/
def revPairRows : List DailyCount := [⟨2, 5⟩, ⟨1, 5⟩]

/-- `mergeSort` with the date order produces a list sorted (non-decreasing)
by date. -/
theorem mergeSort_sorted_by_date (l : List DailyCount) :
    List.Sorted (fun a b => a.date ≤ b.date)
      (l.mergeSort (fun a b => a.date ≤ b.date)) := by
  have htrans : ∀ a b c : DailyCount,
      (fun a b : DailyCount => decide (a.date ≤ b.date)) a b = true →
      (fun a b : DailyCount => decide (a.date ≤ b.date)) b c = true →
      (fun a b : DailyCount => decide (a.date ≤ b.date)) a c = true := by
    intro a b c hab hbc
    simp only [decide_eq_true_eq] at *
    omega
  have htotal : ∀ a b : DailyCount,
      ((fun a b : DailyCount => decide (a.date ≤ b.date)) a b
        || (fun a b : DailyCount => decide (a.date ≤ b.date)) b a) = true := by
    intro a b
    simp [Nat.le_total]
  have h := @List.sorted_mergeSort DailyCount
    (fun a b : DailyCount => decide (a.date ≤ b.date)) htrans htotal l
  exact h.imp (fun hab => of_decide_eq_true hab)

/-- A list sorted by date whose dates are pairwise distinct is strictly
increasing by date. -/
theorem strict_of_sorted_nodup (l : List DailyCount)
    (hs : List.Sorted (fun a b => a.date ≤ b.date) l)
    (hnd : (l.map DailyCount.date).Nodup) :
    List.Pairwise (fun a b : DailyCount => a.date < b.date) l := by
  have hnd2 : List.Pairwise (fun a b : DailyCount => a.date ≠ b.date) l :=
    List.pairwise_map.mp hnd
  exact (hs.and hnd2).imp (fun h => lt_of_le_of_ne h.1 h.2)

/-- C7: the anomaly output is sorted ascending by date, and — as long as the
input satisfies the data-model invariant of one record per distinct date —
the output is identical for every ordering of the input records. -/
theorem output_sorted_and_order_independent (rows rows2 : List DailyCount)
    (hperm : rows.Perm rows2) (hnodup : (rows.map DailyCount.date).Nodup) :
    List.Sorted (fun a b => a.date ≤ b.date) (days_unusual_sale_counts rows) ∧
    days_unusual_sale_counts rows = days_unusual_sale_counts rows2 := by
  refine ⟨by rw [days_unusual_sale_counts]; exact mergeSort_sorted_by_date _, ?_⟩
  have hcc : (countsCol rows).Perm (countsCol rows2) := by
    rw [countsCol, countsCol]
    exact hperm.map _
  have hsc : (countsCol rows).mergeSort (fun a b => a ≤ b)
      = (countsCol rows2).mergeSort (fun a b => a ≤ b) := by
    apply List.eq_of_perm_of_sorted _ (mergeSort_sorted_le _) (mergeSort_sorted_le _)
    exact (List.mergeSort_perm _ _).trans (hcc.trans (List.mergeSort_perm _ _).symm)
  have hq1 : q_1 rows = q_1 rows2 := by rw [q_1, q_1, quantile, quantile, hsc]
  have hq3 : q_3 rows = q_3 rows2 := by rw [q_3, q_3, quantile, quantile, hsc]
  have hlb : lower_bound rows = lower_bound rows2 := by
    rw [lower_bound, lower_bound, iqr, iqr, hq1, hq3]
  have hub : upper_bound rows = upper_bound rows2 := by
    rw [upper_bound, upper_bound, iqr, iqr, hq1, hq3]
  have hpred : (fun r => isAnomaly rows r) = (fun r => isAnomaly rows2 r) := by
    funext r
    rw [isAnomaly, isAnomaly, hlb, hub]
  have hfp : (rows.filter (fun r => isAnomaly rows r)).Perm
      (rows2.filter (fun r => isAnomaly rows2 r)) := by
    rw [hpred]
    exact hperm.filter _
  have hop : (days_unusual_sale_counts rows).Perm (days_unusual_sale_counts rows2) := by
    rw [days_unusual_sale_counts, days_unusual_sale_counts]
    exact (List.mergeSort_perm _ _).trans (hfp.trans (List.mergeSort_perm _ _).symm)
  have hnf : ((rows.filter (fun r => isAnomaly rows r)).map DailyCount.date).Nodup :=
    List.Nodup.sublist (List.Sublist.map _ (List.filter_sublist rows)) hnodup
  have hnod1 : ((days_unusual_sale_counts rows).map DailyCount.date).Nodup := by
    have hpm : (((rows.filter (fun r => isAnomaly rows r)).mergeSort
        (fun a b => a.date ≤ b.date)).map DailyCount.date).Perm
        ((rows.filter (fun r => isAnomaly rows r)).map DailyCount.date) :=
      (List.mergeSort_perm _ _).map _
    rw [days_unusual_sale_counts]
    exact hpm.symm.nodup hnf
  have hnod2 : ((days_unusual_sale_counts rows2).map DailyCount.date).Nodup :=
    (hop.map DailyCount.date).nodup hnod1
  haveI : IsAntisymm DailyCount (fun a b => a.date < b.date) :=
    ⟨fun a b h1 h2 => absurd h1 (Nat.lt_asymm h2)⟩
  exact List.eq_of_perm_of_sorted hop
    (strict_of_sorted_nodup _
      (by rw [days_unusual_sale_counts]; exact mergeSort_sorted_by_date _) hnod1)
    (strict_of_sorted_nodup _
      (by rw [days_unusual_sale_counts]; exact mergeSort_sorted_by_date _) hnod2)

/-- C7 witness: the two-row input in both of its orderings. -/
theorem output_sorted_and_order_independent_witness :
    List.Sorted (fun a b => a.date ≤ b.date) (days_unusual_sale_counts pairRows) ∧
    days_unusual_sale_counts pairRows = days_unusual_sale_counts revPairRows :=
  output_sorted_and_order_independent pairRows revPairRows (by decide) (by decide)

/-- C10: every output record is one of the input rows, unchanged: the output
is a permutation of a sublist of the input, so the pipeline never fabricates,
duplicates, or modifies a record. -/
theorem output_subperm_of_input (rows : List DailyCount) :
    (days_unusual_sale_counts rows).Subperm rows := by
  unfold days_unusual_sale_counts
  exact (List.mergeSort_perm _ _).subperm.trans (List.filter_sublist rows).subperm

/-- C4 counterexample: on the empty collection the detector raises nothing —
it still reaches `to_csv`, writing a header-only CSV for the empty anomaly
list — so the claimed `EmptyInputError` (and the claimed absence of a CSV)
does not hold. -/
theorem empty_input_no_error_counterexample :
    detectorRun [] = DetectorOutcome.wroteCsv [] := by
  simp [detectorRun, days_unusual_sale_counts]

/-- C4 amended: on the empty collection the detector raises no error at all;
it computes an empty anomaly list and writes it (header-only CSV). -/
theorem empty_input_behavior :
    days_unusual_sale_counts [] = [] ∧
    detectorRun [] ≠ DetectorOutcome.raised "EmptyInputError" := by
  refine ⟨by simp [days_unusual_sale_counts], by simp [detectorRun]⟩

/-- C8: when engine creation fails (source unreachable or credentials
rejected), the exception is caught in `connect`, a diagnostic is printed, the
analysis never runs, and `connect` is attempted exactly once (no retry). -/
theorem connection_failure_skips_analysis (env : Env) (h : env.engineFails = true) :
    (main_run env).analysisRan = false ∧
    (main_run env).printed.isSome = true ∧
    (main_run env).connectAttempts = 1 := by
  unfold main_run connect
  cases hc : get_config env.ini <;> simp [h, hc]

/-- C8 witness: a concrete environment whose engine creation fails. -/
theorem connection_failure_skips_analysis_witness :
    (main_run ⟨⟨[("postgresql", [])]⟩, true⟩).analysisRan = false ∧
    (main_run ⟨⟨[("postgresql", [])]⟩, true⟩).printed.isSome = true ∧
    (main_run ⟨⟨[("postgresql", [])]⟩, true⟩).connectAttempts = 1 :=
  connection_failure_skips_analysis ⟨⟨[("postgresql", [])]⟩, true⟩ rfl

/-- C9: when the section `"postgresql"` is absent from the configuration,
`get_config` raises a `ValueError`; the `__main__` block then prints the
diagnostic and performs no analysis. -/
theorem missing_section_is_fatal (env : Env)
    (h : env.ini.sections.lookup "postgresql" = none) :
    get_config env.ini = Except.error "Section postgresql not found in database.ini" ∧
    (main_run env).analysisRan = false ∧
    (main_run env).printed.isSome = true := by
  have hg : get_config env.ini = Except.error "Section postgresql not found in database.ini" := by
    unfold get_config
    rw [h]
  refine ⟨hg, ?_, ?_⟩ <;> simp [main_run, connect, hg]

/-- C9 witness: a concrete configuration with no `"postgresql"` section. -/
theorem missing_section_is_fatal_witness :
    get_config (⟨[]⟩ : IniFile) = Except.error "Section postgresql not found in database.ini" ∧
    (main_run ⟨⟨[]⟩, false⟩).analysisRan = false ∧
    (main_run ⟨⟨[]⟩, false⟩).printed.isSome = true :=
  missing_section_is_fatal ⟨⟨[]⟩, false⟩ rfl

end Anomalies
